import Mathlib

/-!
# Session proxy and ttyrec recording (`main.go`)

A shallow embedding of `proxy`, `logChannel` and `writeTTYRecHeader`.

The Go program talks to three kinds of external objects: the capture file
(`*os.File`), the two SSH channels (`ssh.Channel`) and the two request streams.
They are modelled by one `World`: the observable state of the capture file, the
ordered list of every call made on an external object (`trace`), and an `Env`
of behaviours that decides, from the calls made so far, what each external
call answers (how many bytes a write accepts, which error a close returns, the
answer of a forwarded request).  Nothing is assumed about these behaviours
unless a theorem says so.

Goroutines are modelled by an explicit interleaving: `Proxy` holds the program
counter of the control loop and of the two copy goroutines, and `Step` is one
atomic action of one of them.
-/

namespace Bastion

/-! ## Data model -/

/-- One octet. -/
abbrev Byte := Fin 256

/-- The two ends of the relay: `channel1`/`reqs1` is the client side,
`channel2`/`reqs2` the target side. -/
inductive Side where
  | client
  | target
  deriving DecidableEq, Repr

/-- A non-nil Go `error` value.  `Option GoError` is the Go type `error`. -/
inductive GoError where
  | eof
  | errClosed
  | errShortWrite
  | other (code : Nat)
  deriving DecidableEq, Repr

/-- The fields of `ssh.Request` that the proxy reads. -/
structure Request where
  typ : String
  WantReply : Bool
  Payload : List Byte
  deriving DecidableEq, Repr

/-- A call made on an external object. -/
inductive Call where
  | openFile
  | fileWrite (b : List Byte)
  | fileClose
  | chanRead (s : Side)
  | chanWrite (s : Side) (b : List Byte)
  | chanClose (s : Side)
  | sendRequest (s : Side) (typ : String) (wantReply : Bool) (payload : List Byte)
  | reply (s : Side) (req : Request) (ok : Bool)
  deriving DecidableEq, Repr

/-- The behaviour of the external objects, each answer a function of the calls
made so far. -/
structure Env where
  /-- whether `os.OpenFile` fails -/
  openFails : List Call → Bool
  /-- how many bytes of a write the open capture file accepts -/
  fileAccept : List Call → List Byte → Nat
  /-- the error of closing the open capture file -/
  fileCloseErr : List Call → Option GoError
  /-- the result of `Write` on a channel -/
  chanWrite : Side → List Call → List Byte → Nat × Option GoError
  /-- the error of `Close` on a channel -/
  chanClose : Side → List Call → Option GoError
  /-- the result of `SendRequest` on a channel -/
  chanSend : Side → List Call → String → Bool → List Byte → Bool × Option GoError

/-- The state of everything outside the program. -/
structure World where
  env : Env
  /-- every external call so far, oldest first -/
  trace : List Call
  /-- whether the capture file handle has been closed -/
  fileClosed : Bool
  /-- the bytes stored in the capture file -/
  fileData : List Byte

/-! ## Machine integers -/

/-- Conversion to `int64` (two's complement wrap-around; the constants are
`2^63` and `2^64`). -/
def int64 (x : Int) : Int := (x + 9223372036854775808) % 18446744073709551616 - 9223372036854775808

/-- Conversion to `int32` (two's complement wrap-around; the constants are
`2^31` and `2^32`). -/
def int32 (x : Int) : Int := (x + 2147483648) % 4294967296 - 2147483648

/-- Conversion to `uint32` (the constant is `2^32`). -/
def uint32 (x : Int) : Nat := (x % 4294967296).toNat

/-- Conversion `byte(v)` of an unsigned value. -/
def byte (v : Nat) : Byte := ⟨v % 256, Nat.mod_lt v (by decide)⟩

/-- Go's `/` on integers with a positive divisor: truncation toward zero. -/
def goDiv (a b : Int) : Int := if 0 ≤ a then a / b else -((-a) / b)

/-- Go's `%` on integers with a positive divisor: the sign follows the dividend. -/
def goMod (a b : Int) : Int := a - b * goDiv a b

/-! ## External objects -/

/-- Model of `(*os.File).Write`: a closed handle refuses the write; an open one stores
the bytes the environment accepts and reports a short write as an error. -/
def fileWrite (w : World) (b : List Byte) : (Nat × Option GoError) × World :=
  if w.fileClosed then
    ((0, some GoError.errClosed), { w with trace := w.trace ++ [Call.fileWrite b] })
  else
    let k := min (w.env.fileAccept w.trace b) b.length
    ((k, if k = b.length then none else some GoError.errShortWrite),
      { w with trace := w.trace ++ [Call.fileWrite b], fileData := w.fileData ++ b.take k })

/-- Model of `(*os.File).Close`. -/
def fileClose (w : World) : Option GoError × World :=
  if w.fileClosed then
    (some GoError.errClosed, { w with trace := w.trace ++ [Call.fileClose] })
  else
    (w.env.fileCloseErr w.trace,
      { w with trace := w.trace ++ [Call.fileClose], fileClosed := true })

/-- Model of `ssh.Channel.Write`. -/
def chanWrite (s : Side) (w : World) (b : List Byte) : (Nat × Option GoError) × World :=
  (w.env.chanWrite s w.trace b, { w with trace := w.trace ++ [Call.chanWrite s b] })

/-- Model of `ssh.Channel.Close`. -/
def chanClose (s : Side) (w : World) : Option GoError × World :=
  (w.env.chanClose s w.trace, { w with trace := w.trace ++ [Call.chanClose s] })

/-- Model of `ssh.Channel.SendRequest`. -/
def SendRequest (s : Side) (w : World) (typ : String) (wantReply : Bool)
    (payload : List Byte) : (Bool × Option GoError) × World :=
  (w.env.chanSend s w.trace typ wantReply payload,
    { w with trace := w.trace ++ [Call.sendRequest s typ wantReply payload] })

/-- Model of `(*ssh.Request).Reply(ok, nil)` for a request that arrived on side `s`.
The call is recorded whether or not the request wants a reply. -/
def Reply (s : Side) (req : Request) (ok : Bool) (w : World) : World :=
  { w with trace := w.trace ++ [Call.reply s req ok] }

/-! ## `encoding/binary`, `syscall` -/

/-- Model of `binary.LittleEndian.PutUint32`. -/
def PutUint32 (v : Nat) : List Byte :=
  [byte v, byte (v / 256), byte (v / 65536), byte (v / 16777216)]

/-- Model of `binary.Write(fd, binary.LittleEndian, int32(v))` with `fd` the capture file:
the four bytes go out in one `fd.Write`, whose error is the result. -/
def binaryWrite (w : World) (v : Int) : Option GoError × World :=
  let r := fileWrite w (PutUint32 (uint32 (int32 v)))
  (r.1.2, r.2)

/-- A `syscall.Timeval` (linux/amd64: two `int64`). -/
structure Timeval where
  Sec : Int
  Usec : Int
  deriving DecidableEq, Repr

/-- Model of `syscall.NsecToTimeval`:
`nsec += 999; usec := nsec % 1e9 / 1e3; sec := nsec / 1e9;`
`if usec < 0 { usec += 1e6; sec-- }`. -/
def NsecToTimeval (nsec : Int) : Timeval :=
  let nsec := int64 (nsec + 999)
  let usec := goDiv (goMod nsec 1000000000) 1000
  let sec := goDiv nsec 1000000000
  if usec < 0 then { Sec := int64 (sec - 1), Usec := int64 (usec + 1000000) }
  else { Sec := sec, Usec := usec }

/-! ## `logChannel` -/

/-- The wrapper `logChannel{channel, file}`.  `channel` is the side whose
channel is wrapped; `file` is the capture file of the `World`. -/
structure logChannel where
  channel : Side
  deriving DecidableEq, Repr

/-- Model of `writeTTYRecHeader(fd, length)`; `now` is what `time.Now().UnixNano()` reads. -/
def writeTTYRecHeader (now : Int) (w : World) (length : Nat) : World :=
  let tv := NsecToTimeval now
  let w1 := (binaryWrite w tv.Sec).2
  let w2 := (binaryWrite w1 tv.Usec).2
  (binaryWrite w2 (length : Int)).2

/-- Model of `newLoggedChannel`: opens the capture file truncated; `none` is the panic. -/
def newLoggedChannel (w : World) (channel : Side) : Option (logChannel × World) :=
  if w.env.openFails w.trace then none
  else some ({ channel := channel },
    { w with trace := w.trace ++ [Call.openFile], fileClosed := false, fileData := [] })

/-- Model of `(*logChannel).Read`: the body is the call `l.Read(data)` on the wrapper
itself.  `fuel` bounds the depth of the recursion; `none` means the call has
not returned within it. -/
def logChannel.Read : Nat → logChannel → World → Nat → Option ((Nat × Option GoError) × World)
  | 0, _, _, _ => none
  | fuel + 1, l, w, data => logChannel.Read fuel l w data

/-- Model of `(*logChannel).Write`. -/
def logChannel.Write (l : logChannel) (now : Int) (w : World) (data : List Byte) :
    (Nat × Option GoError) × World :=
  let w1 := writeTTYRecHeader now w data.length
  let w2 := (fileWrite w1 data).2
  chanWrite l.channel w2 data

/-- Model of `(*logChannel).Close`. -/
def logChannel.Close (l : logChannel) (w : World) : Option GoError × World :=
  let w1 := (fileClose w).2
  chanClose l.channel w1

/-! ## `sync.Once` -/

/-- A `sync.Once`. -/
structure Once where
  done : Bool
  deriving DecidableEq, Repr

/-- Model of `(*sync.Once).Do(f)`: runs `f` unless an earlier `Do` has. -/
def Once.Do (o : Once) (f : World → World) (w : World) : Once × World :=
  if o.done then (o, w) else ({ done := true }, f w)

/-! ## `proxy` -/

/-- The closure `closeFunc` of `proxy`; `channel2` is the target channel. -/
def closeFunc (wrappedChannel1 : logChannel) (w : World) : World :=
  let w1 := (wrappedChannel1.Close w).2
  (chanClose Side.target w1).2

/-- Where a copy goroutine stands: inside `io.Copy`, at `closerChan <- true`,
or finished. -/
inductive FlowPc where
  | copying
  | sending
  | done
  deriving DecidableEq, Repr

/-- Where the goroutine that called `proxy` stands: in the `select` of the
loop, or returned (the deferred call has run). -/
inductive MainPc where
  | selecting
  | returned
  deriving DecidableEq, Repr

/-- The capacity of `closerChan`: `make(chan bool, 1)`. -/
def closerChanCap : Nat := 1

/-- The state of one call of `proxy`. -/
structure Proxy where
  w : World
  wrappedChannel1 : logChannel
  closer : Once
  /-- the number of values buffered in `closerChan` -/
  closerChan : Nat
  /-- the goroutine `io.Copy(wrappedChannel1, channel2)` -/
  flowA : FlowPc
  /-- the goroutine `io.Copy(channel2, channel1)` -/
  flowB : FlowPc
  main : MainPc

/-- One atomic action of one goroutine, with what the environment hands it:
the request a receive yields (`none` is the nil request), or what the source's
`Read` returned inside `io.Copy` (`nr` the bytes read, `er` the error) and the
clock reading `now` of the wrapper's `Write`. -/
inductive Step where
  | recvReqs1 (req : Option Request)
  | recvReqs2 (req : Option Request)
  | recvCloserChan
  | copyA (now : Int) (nr : List Byte) (er : Option GoError)
  | copyB (nr : List Byte) (er : Option GoError)
  | sendA
  | sendB

/-- A `return` of `proxy`: the deferred `closer.Do(closeFunc)` runs. -/
def Proxy.ret (p : Proxy) : Proxy :=
  let r := p.closer.Do (closeFunc p.wrappedChannel1) p.w
  { p with closer := r.1, w := r.2, main := MainPc.returned }

/-- The body of a `case req := <-reqs` of the loop, for a request received on
side `src` and forwarded to the channel of side `dst`. -/
def forward (src dst : Side) (req : Option Request) (p : Proxy) : Proxy :=
  match req with
  | none => p.ret
  | some req =>
    let r := SendRequest dst p.w req.typ req.WantReply req.Payload
    if r.1.2.isSome then { p with w := r.2 }.ret
    else { p with w := Reply src req r.1.1 r.2 }

/-- One iteration of the loop of `io.Copy(dst, src)`: `src.Read` returned
`nr, er`; the result says whether the copy has stopped. -/
def copyIter (write : World → List Byte → (Nat × Option GoError) × World) (src : Side)
    (w : World) (nr : List Byte) (er : Option GoError) : Bool × World :=
  let w0 := { w with trace := w.trace ++ [Call.chanRead src] }
  if nr ≠ [] then
    let r := write w0 nr
    if r.1.2.isSome then (true, r.2)
    else if nr.length ≠ r.1.1 then (true, r.2)
    else (er.isSome, r.2)
  else (er.isSome, w0)

/-- The transition of `proxy` on a step; `none` when the step cannot happen in
this state (the goroutine is elsewhere, `closerChan` is empty for a receive or
full for a send). -/
def step (s : Step) (p : Proxy) : Option Proxy :=
  match s with
  | Step.recvReqs1 req =>
    if p.main = MainPc.selecting then some (forward Side.client Side.target req p) else none
  | Step.recvReqs2 req =>
    if p.main = MainPc.selecting then some (forward Side.target Side.client req p) else none
  | Step.recvCloserChan =>
    if p.main = MainPc.selecting ∧ 0 < p.closerChan then
      some ({ p with closerChan := p.closerChan - 1 }.ret)
    else none
  | Step.copyA now nr er =>
    if p.flowA = FlowPc.copying then
      let r := copyIter (p.wrappedChannel1.Write now) Side.target p.w nr er
      some { p with w := r.2, flowA := if r.1 then FlowPc.sending else FlowPc.copying }
    else none
  | Step.copyB nr er =>
    if p.flowB = FlowPc.copying then
      let r := copyIter (chanWrite Side.target) Side.client p.w nr er
      some { p with w := r.2, flowB := if r.1 then FlowPc.sending else FlowPc.copying }
    else none
  | Step.sendA =>
    if p.flowA = FlowPc.sending ∧ p.closerChan < closerChanCap then
      some { p with closerChan := p.closerChan + 1, flowA := FlowPc.done }
    else none
  | Step.sendB =>
    if p.flowB = FlowPc.sending ∧ p.closerChan < closerChanCap then
      some { p with closerChan := p.closerChan + 1, flowB := FlowPc.done }
    else none

/-- The start of `proxy`: the wrapper is built, the `sync.Once` and the channel
are fresh, the two goroutines are started, the loop is entered.  `none` is the
panic of `newLoggedChannel`. -/
def proxyStart (w : World) : Option Proxy :=
  match newLoggedChannel w Side.client with
  | none => none
  | some (l, w0) =>
    some { w := w0, wrappedChannel1 := l, closer := { done := false }, closerChan := 0,
           flowA := FlowPc.copying, flowB := FlowPc.copying, main := MainPc.selecting }

/-- An execution: the steps of a schedule in order; `none` when a step of the
schedule cannot happen. -/
def run : List Step → Proxy → Option Proxy
  | [], p => some p
  | s :: ss, p => (step s p).bind (run ss)

/-- Runs `n` calls of `closer.Do(closeFunc)` in a row. -/
def doTimes (l : logChannel) : Nat → Once × World → Once × World
  | 0, s => s
  | n + 1, s => doTimes l n (s.1.Do (closeFunc l) s.2)

/-- A sequence of writes through the wrapper, each with its clock reading. -/
def writeAll (l : logChannel) : List (Int × List Byte) → World → World
  | [], w => w
  | (now, data) :: rest, w => writeAll l rest (l.Write now w data).2

/-! ## Observations on traces -/

/-- Whether a call is a call on the channel of side `s`. -/
def Call.onChannel (s : Side) : Call → Bool
  | Call.chanRead s' => s = s'
  | Call.chanWrite s' _ => s = s'
  | Call.chanClose s' => s = s'
  | Call.sendRequest s' _ _ _ => s = s'
  | _ => false

/-- Whether a call is a `Close`. -/
def Call.isClose : Call → Bool
  | Call.fileClose => true
  | Call.chanClose _ => true
  | _ => false

/-- The calls made after the first `n`. -/
def callsSince (n : Nat) (w : World) : List Call := w.trace.drop n

/-- The `Close` calls among the calls made after the first `n`. -/
def closesSince (n : Nat) (w : World) : List Call := (callsSince n w).filter Call.isClose

/-- The teardown of `proxy`: capture file, client channel, target channel. -/
def teardownCalls : List Call :=
  [Call.fileClose, Call.chanClose Side.client, Call.chanClose Side.target]

/-- The invariant of `proxy` behind the teardown: the wrapper wraps the client
channel; while the loop runs the `sync.Once` is fresh and nothing has been
closed; once `proxy` has returned the `sync.Once` is spent and the closes made
are the teardown, once. -/
structure TeardownInv (n : Nat) (p : Proxy) : Prop where
  len : n ≤ p.w.trace.length
  wrapped : p.wrappedChannel1.channel = Side.client
  running : p.main = MainPc.selecting → p.closer.done = false ∧ closesSince n p.w = []
  returned : p.main = MainPc.returned → p.closer.done = true ∧ closesSince n p.w = teardownCalls

/-! ## The capture format, as the specification words it -/

/-- The 4-byte little-endian two's complement encoding of the low 32 bits of
`x`, byte by byte. -/
def specLE32 (x : Int) : List Byte :=
  [byte (x % 256).toNat, byte (x / 256 % 256).toNat, byte (x / 65536 % 256).toNat,
   byte (x / 16777216 % 256).toNat]

/-- Reads four bytes as an unsigned little-endian 32-bit integer. -/
def leUint32 : List Byte → Nat
  | [b0, b1, b2, b3] => b0.val + 256 * b1.val + 65536 * b2.val + 16777216 * b3.val
  | _ => 0

/-- Reads four bytes as a signed little-endian 32-bit integer. -/
def leInt32 (b : List Byte) : Int := int32 (leUint32 b)

/-- A record as a reader of the capture sees it. -/
structure Record where
  sec : Int
  usec : Int
  payload : List Byte
  deriving DecidableEq, Repr

/-- The reader of the specification (section 6): read a 12-byte header, then
`length` bytes, with `length` the third `int32` of the header, and repeat until
the end of the data.  `none` when the data ends inside a header or a payload,
or when `length` is negative.  Every record takes at least 12 bytes, so `fuel`
above the number of records is enough. -/
def specReadRecords : Nat → List Byte → Option (List Record)
  | 0, _ => none
  | fuel + 1, bs =>
    if bs = [] then some []
    else if bs.length < 12 then none
    else if leInt32 ((bs.drop 8).take 4) < 0 then none
    else if (bs.drop 12).length < (leInt32 ((bs.drop 8).take 4)).toNat then none
    else
      (specReadRecords fuel ((bs.drop 12).drop (leInt32 ((bs.drop 8).take 4)).toNat)).map
        (fun rs =>
          { sec := leInt32 (bs.take 4),
            usec := leInt32 ((bs.drop 4).take 4),
            payload := (bs.drop 12).take (leInt32 ((bs.drop 8).take 4)).toNat } :: rs)

/-- The reader of the specification on a whole capture. -/
def specParseCapture (bs : List Byte) : Option (List Record) :=
  specReadRecords (bs.length + 1) bs

/-- The record of the specification for a payload written at clock reading `t`
(nanoseconds since the epoch): whole seconds of `t`, microseconds of `t` within
the second, payload length, payload. -/
def specRecordBytes (t : Int) (payload : List Byte) : List Byte :=
  specLE32 (t / 1000000000) ++ specLE32 (t % 1000000000 / 1000) ++
    specLE32 (payload.length : Int) ++ payload

/-- The clock reading `t` (nanoseconds) rounded up to whole microseconds. -/
def ceilMicros (t : Int) : Int := (t + 999) / 1000

/-- The record with the clock reading rounded up to the next whole microsecond
before it is split into seconds and microseconds within the second. -/
def roundedRecordBytes (t : Int) (payload : List Byte) : List Byte :=
  specLE32 (ceilMicros t / 1000000) ++ specLE32 (ceilMicros t % 1000000) ++
    specLE32 (payload.length : Int) ++ payload

/-- The clock reading `t` (nanoseconds since the epoch) has seconds that fit a
signed 32-bit integer once 999 ns are added: it lies between `-2^31` s and
`2^31` s. -/
def FitsInt32Seconds (t : Int) : Prop :=
  -2147483648000000000 ≤ t + 999 ∧ t + 999 < 2147483648000000000

instance (t : Int) : Decidable (FitsInt32Seconds t) := by
  unfold FitsInt32Seconds; infer_instance

/-- The order on timestamps: seconds first, then microseconds. -/
def stampLE (a b : Record) : Prop := a.sec < b.sec ∨ (a.sec = b.sec ∧ a.usec ≤ b.usec)

instance (a b : Record) : Decidable (stampLE a b) := by unfold stampLE; infer_instance

/-- The capture file is open and takes every write in full. -/
def SinkAccepts (w : World) : Prop :=
  w.fileClosed = false ∧ ∀ (t : List Call) (b : List Byte), b.length ≤ w.env.fileAccept t b

/-- The twelve bytes that `writeTTYRecHeader(fd, length)` hands to `fd` at clock
reading `now`, in the order of its three `binary.Write`. -/
def headerBytes (now : Int) (length : Nat) : List Byte :=
  PutUint32 (uint32 (int32 (NsecToTimeval now).Sec)) ++
    PutUint32 (uint32 (int32 (NsecToTimeval now).Usec)) ++
    PutUint32 (uint32 (int32 (length : Int)))

/-- The bytes that a sequence of writes hands to the capture file. -/
def captureOf : List (Int × List Byte) → List Byte
  | [] => []
  | (now, data) :: rest => headerBytes now data.length ++ data ++ captureOf rest

/-- The record a reader is to find for a write: the header fields as stored,
read back as signed 32-bit integers, and the payload. -/
def recordOf (x : Int × List Byte) : Record :=
  { sec := int32 (NsecToTimeval x.1).Sec, usec := int32 (NsecToTimeval x.1).Usec,
    payload := x.2 }

/-! ## A concrete world -/

/-- An environment in which every external call succeeds in full. -/
def idealEnv : Env where
  openFails := fun _ => false
  fileAccept := fun _ b => b.length
  fileCloseErr := fun _ => none
  chanWrite := fun _ _ b => (b.length, none)
  chanClose := fun _ _ => none
  chanSend := fun _ _ _ _ _ => (true, none)

/-- The world before `proxy` is called: no call made, no capture file open. -/
def idealWorld : World where
  env := idealEnv
  trace := []
  fileClosed := true
  fileData := []

/-- The world right after `newLoggedChannel` in `idealWorld`. -/
def freshWorld : World where
  env := idealEnv
  trace := [Call.openFile]
  fileClosed := false
  fileData := []

/-- The wrapper around the client channel. -/
def clientLog : logChannel := { channel := Side.client }

/-- The state of `proxy` when it enters its loop in `idealWorld`. -/
def startProxy : Proxy where
  w := freshWorld
  wrappedChannel1 := clientLog
  closer := { done := false }
  closerChan := 0
  flowA := FlowPc.copying
  flowB := FlowPc.copying
  main := MainPc.selecting

/-- A `window-change` request that wants no reply. -/
def resizeReq : Request where
  typ := "window-change"
  WantReply := false
  Payload := [0, 0, 0, 80, 0, 0, 0, 24]

/-- The bytes of the text `"a.txt\nb.txt\n"`. -/
def lsOutput : List Byte := [97, 46, 116, 120, 116, 10, 98, 46, 116, 120, 116, 10]

/-- A payload of `2^32` bytes. -/
def longPayload : List Byte := List.replicate (2 ^ 32) 0

/-! ## Basic facts about the external calls -/

theorem fileWrite_trace (w : World) (b : List Byte) :
    (fileWrite w b).2.trace = w.trace ++ [Call.fileWrite b] := by
  unfold fileWrite; split <;> rfl

theorem fileWrite_env (w : World) (b : List Byte) : (fileWrite w b).2.env = w.env := by
  unfold fileWrite; split <;> rfl

theorem fileWrite_closed (w : World) (b : List Byte) :
    (fileWrite w b).2.fileClosed = w.fileClosed := by
  unfold fileWrite; split <;> rfl

theorem binaryWrite_trace (w : World) (v : Int) :
    (binaryWrite w v).2.trace = w.trace ++ [Call.fileWrite (PutUint32 (uint32 (int32 v)))] := by
  simp [binaryWrite, fileWrite_trace]

theorem binaryWrite_env (w : World) (v : Int) : (binaryWrite w v).2.env = w.env := by
  simp [binaryWrite, fileWrite_env]

theorem writeTTYRecHeader_trace (now : Int) (w : World) (n : Nat) :
    (writeTTYRecHeader now w n).trace = w.trace ++
      [Call.fileWrite (PutUint32 (uint32 (int32 (NsecToTimeval now).Sec))),
       Call.fileWrite (PutUint32 (uint32 (int32 (NsecToTimeval now).Usec))),
       Call.fileWrite (PutUint32 (uint32 (int32 (n : Int))))] := by
  simp [writeTTYRecHeader, binaryWrite_trace]

theorem writeTTYRecHeader_env (now : Int) (w : World) (n : Nat) :
    (writeTTYRecHeader now w n).env = w.env := by
  simp [writeTTYRecHeader, binaryWrite_env]

theorem fileClose_trace (w : World) : (fileClose w).2.trace = w.trace ++ [Call.fileClose] := by
  unfold fileClose; split <;> rfl

theorem fileClose_env (w : World) : (fileClose w).2.env = w.env := by
  unfold fileClose; split <;> rfl

/-- The calls of one `logChannel.Write`: four writes on the capture file, then
one write on the channel. -/
theorem logChannel_Write_trace (l : logChannel) (now : Int) (w : World) (data : List Byte) :
    (l.Write now w data).2.trace = w.trace ++
      [Call.fileWrite (PutUint32 (uint32 (int32 (NsecToTimeval now).Sec))),
       Call.fileWrite (PutUint32 (uint32 (int32 (NsecToTimeval now).Usec))),
       Call.fileWrite (PutUint32 (uint32 (int32 (data.length : Int)))),
       Call.fileWrite data,
       Call.chanWrite l.channel data] := by
  simp [logChannel.Write, chanWrite, fileWrite_trace, writeTTYRecHeader_trace]

theorem logChannel_Write_env (l : logChannel) (now : Int) (w : World) (data : List Byte) :
    (l.Write now w data).2.env = w.env := by
  simp [logChannel.Write, chanWrite, fileWrite_env, writeTTYRecHeader_env]

/-- The calls of one `logChannel.Close`. -/
theorem logChannel_Close_trace (l : logChannel) (w : World) :
    (l.Close w).2.trace = w.trace ++ [Call.fileClose, Call.chanClose l.channel] := by
  simp [logChannel.Close, chanClose, fileClose_trace]

/-! ## C1, C7, C8: the wrapper -/

/-- C1: `logChannel.Write` is write-transparent.  In every world (whatever the
capture file does: closed, refusing bytes, short writes) the calls that one
`Write` makes on the underlying channel are exactly one `Write` with the bytes
`data`, it is the last call made, and the result of `logChannel.Write` is the
(count, error) that the channel answers to that very call. -/
theorem logChannel_Write_transparent (l : logChannel) (now : Int) (w : World)
    (data : List Byte) :
    ((callsSince w.trace.length (l.Write now w data).2).filter (Call.onChannel l.channel)
        = [Call.chanWrite l.channel data]) ∧
    (l.Write now w data).2.trace.getLast? = some (Call.chanWrite l.channel data) ∧
    (l.Write now w data).1
        = w.env.chanWrite l.channel (l.Write now w data).2.trace.dropLast data := by
  refine ⟨?_, ?_, ?_⟩
  · simp [callsSince, logChannel_Write_trace, Call.onChannel]
  · simp [logChannel_Write_trace]
  · have h := logChannel_Write_trace l now w data
    rw [h]
    simp [logChannel.Write, chanWrite, fileWrite_trace, fileWrite_env, writeTTYRecHeader_trace,
      writeTTYRecHeader_env, List.dropLast_append_cons]

/-- C7: `logChannel.Read` as written calls itself: whatever the depth allowed,
the call has not returned, so it yields no (count, error) and in particular
never reaches the underlying channel's `Read`. -/
theorem logChannel_Read_never_returns (fuel : Nat) (l : logChannel) (w : World) (data : Nat) :
    logChannel.Read fuel l w data = none := by
  induction fuel with
  | zero => rfl
  | succ n ih => simpa [logChannel.Read] using ih

/-- C8: `logChannel.Close` makes exactly two calls, `Close` on the capture file
and then `Close` on the underlying channel, and returns the error the channel
answers to that `Close`, whatever closing the file answered. -/
theorem logChannel_Close_order (l : logChannel) (w : World) :
    callsSince w.trace.length (l.Close w).2 = [Call.fileClose, Call.chanClose l.channel] ∧
    (l.Close w).1 = w.env.chanClose l.channel (w.trace ++ [Call.fileClose]) := by
  constructor
  · simp [callsSince, logChannel_Close_trace]
  · simp [logChannel.Close, chanClose, fileClose_trace, fileClose_env]

/-! ## C4: forwarding of control requests -/

theorem closeFunc_trace (l : logChannel) (w : World) :
    (closeFunc l w).trace
      = w.trace ++ [Call.fileClose, Call.chanClose l.channel, Call.chanClose Side.target] := by
  simp [closeFunc, chanClose, logChannel_Close_trace]

/-- What a `return` of `proxy` adds to the trace: the three closes when the
`sync.Once` is fresh, nothing otherwise. -/
theorem ret_trace (p : Proxy) :
    p.ret.w.trace = p.w.trace ++
      (if p.closer.done then []
       else [Call.fileClose, Call.chanClose p.wrappedChannel1.channel,
             Call.chanClose Side.target]) := by
  unfold Proxy.ret Once.Do
  by_cases h : p.closer.done <;> simp [h, closeFunc_trace]

theorem ret_main (p : Proxy) : p.ret.main = MainPc.returned := rfl

theorem ret_done (p : Proxy) : p.ret.closer.done = true := by
  unfold Proxy.ret Once.Do
  by_cases h : p.closer.done <;> simp [h]

/-- The body of a request case, for a non-nil request received on `src` and
forwarded to `dst`. -/
theorem forward_some (src dst : Side) (req : Request) (p : Proxy) :
    (((p.w.env.chanSend dst p.w.trace req.typ req.WantReply req.Payload).2 = none →
        (forward src dst (some req) p).main = p.main ∧
        callsSince p.w.trace.length (forward src dst (some req) p).w
          = [Call.sendRequest dst req.typ req.WantReply req.Payload,
             Call.reply src req
               (p.w.env.chanSend dst p.w.trace req.typ req.WantReply req.Payload).1]) ∧
     ((p.w.env.chanSend dst p.w.trace req.typ req.WantReply req.Payload).2 ≠ none →
        (forward src dst (some req) p).main = MainPc.returned ∧
        ∃ rest, callsSince p.w.trace.length (forward src dst (some req) p).w
            = Call.sendRequest dst req.typ req.WantReply req.Payload :: rest ∧
          ∀ c ∈ rest, c.isClose = true)) := by
  constructor
  · intro h
    simp [forward, SendRequest, h, Reply, callsSince]
  · intro h
    obtain ⟨e, he⟩ := Option.ne_none_iff_exists'.mp h
    refine ⟨by simp [forward, SendRequest, he, ret_main], ?_⟩
    simp only [forward, SendRequest, he, Option.isSome_some, if_true, callsSince, ret_trace]
    by_cases hd : p.closer.done <;> simp [hd, Call.isClose]

/-- C4: in the loop, a non-nil request `req` received from the client side is
sent once to the target channel with the same type, want-reply flag and
payload; when that send answers an error the loop returns and no reply is made
(the only further calls are the closes of the teardown); otherwise the loop
goes on after replying to `req` on the client side with the result of the
target-side send.  A request received from the target side is handled by the
mirror image. -/
theorem proxy_forwards_requests (p : Proxy) (req : Request)
    (h : p.main = MainPc.selecting) :
    (∃ q, step (Step.recvReqs1 (some req)) p = some q ∧
      ((p.w.env.chanSend Side.target p.w.trace req.typ req.WantReply req.Payload).2 = none →
        q.main = MainPc.selecting ∧
        callsSince p.w.trace.length q.w
          = [Call.sendRequest Side.target req.typ req.WantReply req.Payload,
             Call.reply Side.client req
               (p.w.env.chanSend Side.target p.w.trace req.typ req.WantReply req.Payload).1]) ∧
      ((p.w.env.chanSend Side.target p.w.trace req.typ req.WantReply req.Payload).2 ≠ none →
        q.main = MainPc.returned ∧
        ∃ rest, callsSince p.w.trace.length q.w
            = Call.sendRequest Side.target req.typ req.WantReply req.Payload :: rest ∧
          ∀ c ∈ rest, c.isClose = true)) ∧
    (∃ q, step (Step.recvReqs2 (some req)) p = some q ∧
      ((p.w.env.chanSend Side.client p.w.trace req.typ req.WantReply req.Payload).2 = none →
        q.main = MainPc.selecting ∧
        callsSince p.w.trace.length q.w
          = [Call.sendRequest Side.client req.typ req.WantReply req.Payload,
             Call.reply Side.target req
               (p.w.env.chanSend Side.client p.w.trace req.typ req.WantReply req.Payload).1]) ∧
      ((p.w.env.chanSend Side.client p.w.trace req.typ req.WantReply req.Payload).2 ≠ none →
        q.main = MainPc.returned ∧
        ∃ rest, callsSince p.w.trace.length q.w
            = Call.sendRequest Side.client req.typ req.WantReply req.Payload :: rest ∧
          ∀ c ∈ rest, c.isClose = true)) := by
  constructor
  · refine ⟨forward Side.client Side.target (some req) p, by simp [step, h], ?_, ?_⟩
    · intro he
      have := (forward_some Side.client Side.target req p).1 he
      exact ⟨by rw [this.1, h], this.2⟩
    · exact (forward_some Side.client Side.target req p).2
  · refine ⟨forward Side.target Side.client (some req) p, by simp [step, h], ?_, ?_⟩
    · intro he
      have := (forward_some Side.target Side.client req p).1 he
      exact ⟨by rw [this.1, h], this.2⟩
    · exact (forward_some Side.target Side.client req p).2

/-! ## C5: `closer.Do(closeFunc)` -/

theorem doTimes_done (l : logChannel) (n : Nat) (o : Once) (w : World) (h : o.done = true) :
    doTimes l n (o, w) = (o, w) := by
  induction n with
  | zero => rfl
  | succ k ih => simp [doTimes, Once.Do, h, ih]

theorem doTimes_fresh (l : logChannel) (n : Nat) (w : World) :
    doTimes l (n + 1) ({ done := false }, w) = ({ done := true }, closeFunc l w) := by
  simp [doTimes, Once.Do, doTimes_done]

/-- C5: for every `N ≥ 1`, `N` calls of `closer.Do(closeFunc)` on a fresh
`sync.Once` leave the world that one run of the close sequence leaves: the
calls made are exactly the close of the wrapper (capture file, then client
channel) and then the close of the target channel, each once; one more call
changes nothing. -/
theorem closer_Do_exactly_once (w : World) (N : Nat) (h : 1 ≤ N) :
    (doTimes { channel := Side.client } N ({ done := false }, w)).2
        = closeFunc { channel := Side.client } w ∧
    callsSince w.trace.length (doTimes { channel := Side.client } N ({ done := false }, w)).2
        = [Call.fileClose, Call.chanClose Side.client, Call.chanClose Side.target] ∧
    doTimes { channel := Side.client } (N + 1) ({ done := false }, w)
        = doTimes { channel := Side.client } N ({ done := false }, w) := by
  obtain ⟨n, rfl⟩ : ∃ n, N = n + 1 := ⟨N - 1, by omega⟩
  refine ⟨by rw [doTimes_fresh], ?_, by rw [doTimes_fresh, doTimes_fresh]⟩
  rw [doTimes_fresh]
  simp [callsSince, closeFunc_trace]

/-! ## C6: the teardown -/

theorem closesSince_append (n : Nat) (w w1 : World) (ext : List Call)
    (hn : n ≤ w.trace.length) (h : w1.trace = w.trace ++ ext) :
    closesSince n w1 = closesSince n w ++ ext.filter Call.isClose := by
  simp [closesSince, callsSince, h, List.drop_append_of_le_length hn]

/-- One iteration of `io.Copy` makes no `Close` call, given that the writer
makes none. -/
theorem copyIter_trace (write : World → List Byte → (Nat × Option GoError) × World)
    (hw : ∀ w b, ∃ ext, (write w b).2.trace = w.trace ++ ext ∧ ext.filter Call.isClose = [])
    (src : Side) (w : World) (nr : List Byte) (er : Option GoError) :
    ∃ ext, (copyIter write src w nr er).2.trace = w.trace ++ ext ∧
      ext.filter Call.isClose = [] := by
  unfold copyIter
  obtain ⟨ext, h1, h2⟩ := hw { w with trace := w.trace ++ [Call.chanRead src] } nr
  by_cases hnr : nr = []
  · exact ⟨[Call.chanRead src], by simp [hnr], by simp [Call.isClose]⟩
  · refine ⟨Call.chanRead src :: ext, ?_, by simp [Call.isClose, h2]⟩
    simp only [hnr, ne_eq, not_false_eq_true, if_true]
    split
    · simpa using h1
    · split <;> simpa using h1

theorem forward_trace (src dst : Side) (req : Option Request) (p : Proxy) :
    ∃ ext, (forward src dst req p).w.trace = p.w.trace ++ ext ∧
      (forward src dst req p).wrappedChannel1 = p.wrappedChannel1 ∧
      (((forward src dst req p).main = p.main ∧ (forward src dst req p).closer = p.closer ∧
          ext.filter Call.isClose = []) ∨
       ((forward src dst req p).main = MainPc.returned ∧
          (forward src dst req p).closer.done = true ∧
          ext.filter Call.isClose =
            if p.closer.done then []
            else [Call.fileClose, Call.chanClose p.wrappedChannel1.channel,
                  Call.chanClose Side.target])) := by
  cases req with
  | none =>
    refine ⟨_, ret_trace p, rfl, Or.inr ⟨rfl, ret_done p, ?_⟩⟩
    by_cases hd : p.closer.done <;> simp [hd, Call.isClose]
  | some req =>
    by_cases he : (p.w.env.chanSend dst p.w.trace req.typ req.WantReply req.Payload).2.isSome
    · refine ⟨Call.sendRequest dst req.typ req.WantReply req.Payload ::
          (if p.closer.done then []
           else [Call.fileClose, Call.chanClose p.wrappedChannel1.channel,
                 Call.chanClose Side.target]), ?_, ?_, Or.inr ⟨?_, ?_, ?_⟩⟩
      · simp [forward, SendRequest, he, ret_trace]
      · simp [forward, SendRequest, he, Proxy.ret]
      · simp [forward, SendRequest, he, Proxy.ret]
      · simp [forward, SendRequest, he, ret_done]
      · by_cases hd : p.closer.done <;> simp [hd, Call.isClose]
    · refine ⟨[Call.sendRequest dst req.typ req.WantReply req.Payload,
          Call.reply src req
            (p.w.env.chanSend dst p.w.trace req.typ req.WantReply req.Payload).1],
          ?_, ?_, Or.inl ⟨?_, ?_, ?_⟩⟩
      · simp [forward, SendRequest, he, Reply]
      · simp [forward, SendRequest, he]
      · simp [forward, SendRequest, he]
      · simp [forward, SendRequest, he]
      · simp [Call.isClose]

/-- The invariant survives a step that leaves the loop and the `sync.Once`
where they are and closes nothing. -/
theorem TeardownInv.quiet {n : Nat} {p q : Proxy} (hi : TeardownInv n p) (ext : List Call)
    (ht : q.w.trace = p.w.trace ++ ext) (hw : q.wrappedChannel1 = p.wrappedChannel1)
    (hm : q.main = p.main) (hc : q.closer = p.closer) (he : ext.filter Call.isClose = []) :
    TeardownInv n q := by
  have hcl : closesSince n q.w = closesSince n p.w := by
    rw [closesSince_append n p.w q.w ext hi.len ht, he, List.append_nil]
  refine ⟨by rw [ht, List.length_append]; have := hi.len; omega, by rw [hw]; exact hi.wrapped,
    ?_, ?_⟩
  · intro h; rw [hc, hcl]; exact hi.running (hm ▸ h)
  · intro h; rw [hc, hcl]; exact hi.returned (hm ▸ h)

/-- The invariant survives a `return` taken from the loop. -/
theorem TeardownInv.exit {n : Nat} {p q : Proxy} (hi : TeardownInv n p) (ext : List Call)
    (hp : p.main = MainPc.selecting)
    (ht : q.w.trace = p.w.trace ++ ext) (hw : q.wrappedChannel1 = p.wrappedChannel1)
    (hm : q.main = MainPc.returned) (hc : q.closer.done = true)
    (he : ext.filter Call.isClose =
      if p.closer.done then []
      else [Call.fileClose, Call.chanClose p.wrappedChannel1.channel,
            Call.chanClose Side.target]) :
    TeardownInv n q := by
  obtain ⟨hd, hcl⟩ := hi.running hp
  refine ⟨by rw [ht, List.length_append]; have := hi.len; omega, by rw [hw]; exact hi.wrapped,
    ?_, ?_⟩
  · intro h; rw [hm] at h; exact absurd h (by decide)
  · intro _
    refine ⟨hc, ?_⟩
    rw [closesSince_append n p.w q.w ext hi.len ht, hcl, he, hd, hi.wrapped]
    rfl

theorem logChannel_Write_no_close (l : logChannel) (now : Int) (w : World) (b : List Byte) :
    ∃ ext, (l.Write now w b).2.trace = w.trace ++ ext ∧ ext.filter Call.isClose = [] :=
  ⟨_, logChannel_Write_trace l now w b, by simp [Call.isClose]⟩

theorem chanWrite_no_close (s : Side) (w : World) (b : List Byte) :
    ∃ ext, (chanWrite s w b).2.trace = w.trace ++ ext ∧ ext.filter Call.isClose = [] :=
  ⟨[Call.chanWrite s b], rfl, by simp [Call.isClose]⟩

/-- Every step of `proxy` keeps the teardown invariant. -/
theorem step_inv (n : Nat) (s : Step) (p q : Proxy) (hs : step s p = some q)
    (hi : TeardownInv n p) : TeardownInv n q := by
  cases s with
  | recvReqs1 req =>
    by_cases hp : p.main = MainPc.selecting
    · simp only [step, hp, if_true, Option.some.injEq] at hs
      subst hs
      obtain ⟨ext, ht, hw, h | h⟩ := forward_trace Side.client Side.target req p
      · exact hi.quiet ext ht hw h.1 h.2.1 h.2.2
      · exact hi.exit ext hp ht hw h.1 h.2.1 h.2.2
    · simp [step, hp] at hs
  | recvReqs2 req =>
    by_cases hp : p.main = MainPc.selecting
    · simp only [step, hp, if_true, Option.some.injEq] at hs
      subst hs
      obtain ⟨ext, ht, hw, h | h⟩ := forward_trace Side.target Side.client req p
      · exact hi.quiet ext ht hw h.1 h.2.1 h.2.2
      · exact hi.exit ext hp ht hw h.1 h.2.1 h.2.2
    · simp [step, hp] at hs
  | recvCloserChan =>
    by_cases hp : p.main = MainPc.selecting ∧ 0 < p.closerChan
    · simp only [step, hp, and_self, if_true, Option.some.injEq] at hs
      subst hs
      refine hi.exit _ hp.1 (ret_trace _) rfl rfl (ret_done _) ?_
      by_cases hd : p.closer.done <;> simp [hd, Call.isClose]
    · simp [step, hp] at hs
  | copyA now nr er =>
    by_cases hp : p.flowA = FlowPc.copying
    · simp only [step, hp, if_true, Option.some.injEq] at hs
      subst hs
      obtain ⟨ext, ht, he⟩ := copyIter_trace (p.wrappedChannel1.Write now)
        (logChannel_Write_no_close p.wrappedChannel1 now) Side.target p.w nr er
      exact hi.quiet ext ht rfl rfl rfl he
    · simp [step, hp] at hs
  | copyB nr er =>
    by_cases hp : p.flowB = FlowPc.copying
    · simp only [step, hp, if_true, Option.some.injEq] at hs
      subst hs
      obtain ⟨ext, ht, he⟩ := copyIter_trace (chanWrite Side.target)
        (chanWrite_no_close Side.target) Side.client p.w nr er
      exact hi.quiet ext ht rfl rfl rfl he
    · simp [step, hp] at hs
  | sendA =>
    by_cases hp : p.flowA = FlowPc.sending ∧ p.closerChan < closerChanCap
    · simp only [step, hp, and_self, if_true, Option.some.injEq] at hs
      subst hs
      exact hi.quiet [] (by simp) rfl rfl rfl rfl
    · simp [step, hp] at hs
  | sendB =>
    by_cases hp : p.flowB = FlowPc.sending ∧ p.closerChan < closerChanCap
    · simp only [step, hp, and_self, if_true, Option.some.injEq] at hs
      subst hs
      exact hi.quiet [] (by simp) rfl rfl rfl rfl
    · simp [step, hp] at hs

theorem run_inv (n : Nat) (sched : List Step) (p q : Proxy) (hr : run sched p = some q)
    (hi : TeardownInv n p) : TeardownInv n q := by
  induction sched generalizing p with
  | nil => simp [run] at hr; subst hr; exact hi
  | cons s ss ih =>
    simp only [run] at hr
    cases hs : step s p with
    | none => simp [hs] at hr
    | some p1 =>
      rw [hs] at hr
      exact ih p1 hr (step_inv n s p p1 hs hi)

theorem proxyStart_inv (w : World) (p0 : Proxy) (h0 : proxyStart w = some p0) :
    TeardownInv w.trace.length p0 ∧ p0.main = MainPc.selecting := by
  unfold proxyStart newLoggedChannel at h0
  by_cases hf : w.env.openFails w.trace
  · simp [hf] at h0
  · simp only [hf, Bool.false_eq_true, if_false, Option.some.injEq] at h0
    subst h0
    refine ⟨⟨by simp, rfl, fun _ => ⟨rfl, ?_⟩, fun h => by simp at h⟩, rfl⟩
    simp [closesSince, callsSince, Call.isClose]

/-- C6: in every execution of `proxy` (any schedule of the loop and the two
copy goroutines), once `proxy` has returned the deferred shutdown has run and
the `Close` calls made since `proxy` was called are exactly: capture file,
client channel, target channel, each once and in that order; and from the
loop each exit fires the return: a nil request from the client stream, a nil
request from the target stream, a forward that answers an error in either
direction, and a value received from `closerChan`. -/
theorem proxy_teardown_on_every_exit (w : World) (p0 p : Proxy) (sched : List Step)
    (h0 : proxyStart w = some p0) (hr : run sched p0 = some p) :
    (p.main = MainPc.returned →
      p.closer.done = true ∧ closesSince w.trace.length p.w = teardownCalls) ∧
    (p.main = MainPc.selecting →
      (∃ q, step (Step.recvReqs1 none) p = some q ∧ q.main = MainPc.returned) ∧
      (∃ q, step (Step.recvReqs2 none) p = some q ∧ q.main = MainPc.returned) ∧
      (∀ req, (p.w.env.chanSend Side.target p.w.trace req.typ req.WantReply req.Payload).2
          ≠ none →
        ∃ q, step (Step.recvReqs1 (some req)) p = some q ∧ q.main = MainPc.returned) ∧
      (∀ req, (p.w.env.chanSend Side.client p.w.trace req.typ req.WantReply req.Payload).2
          ≠ none →
        ∃ q, step (Step.recvReqs2 (some req)) p = some q ∧ q.main = MainPc.returned) ∧
      (0 < p.closerChan →
        ∃ q, step Step.recvCloserChan p = some q ∧ q.main = MainPc.returned)) := by
  have hi := run_inv w.trace.length sched p0 p hr (proxyStart_inv w p0 h0).1
  refine ⟨hi.returned, fun hp => ⟨?_, ?_, ?_, ?_, ?_⟩⟩
  · exact ⟨forward Side.client Side.target none p, by simp [step, hp], rfl⟩
  · exact ⟨forward Side.target Side.client none p, by simp [step, hp], rfl⟩
  · intro req he
    exact ⟨forward Side.client Side.target (some req) p, by simp [step, hp],
      ((forward_some Side.client Side.target req p).2 he).1⟩
  · intro req he
    exact ⟨forward Side.target Side.client (some req) p, by simp [step, hp],
      ((forward_some Side.target Side.client req p).2 he).1⟩
  · intro hc
    exact ⟨{ p with closerChan := p.closerChan - 1 }.ret, by simp [step, hp, hc], rfl⟩

/-! ## C10: the termination signals -/

/-- C10: an execution of `proxy` in which a copy goroutine never completes its
send.  The client stream yields a nil request, so the loop returns without
receiving from `closerChan`; both copies then stop; the first goroutine's
value fills the one-slot buffer; the second goroutine stands at
`closerChan <- true` with `proxy` returned, and no step of any goroutine is
possible any more: it is blocked forever. -/
theorem copy_flow_blocked_forever :
    ∃ p, (proxyStart idealWorld).bind
        (run [Step.recvReqs1 none, Step.copyA 0 [] (some GoError.eof), Step.sendA,
              Step.copyB [] (some GoError.eof)]) = some p ∧
      p.main = MainPc.returned ∧ p.flowA = FlowPc.done ∧ p.flowB = FlowPc.sending ∧
      p.closerChan = closerChanCap ∧ ∀ s, step s p = none := by
  refine ⟨_, rfl, rfl, rfl, rfl, rfl, ?_⟩
  intro s
  cases s <;> rfl

/-! ## The bytes of the capture -/

theorem PutUint32_eq_specLE32 (x : Int) : PutUint32 (uint32 (int32 x)) = specLE32 x := by
  simp only [PutUint32, specLE32, byte, uint32, int32, List.cons.injEq, Fin.mk.injEq, and_true]
  refine ⟨?_, ?_, ?_, ?_⟩ <;> omega

theorem leInt32_PutUint32 (x : Int) : leInt32 (PutUint32 (uint32 (int32 x))) = int32 x := by
  simp only [leInt32, leUint32, PutUint32, byte, uint32, int32]
  omega

theorem PutUint32_length (v : Nat) : (PutUint32 v).length = 4 := rfl

theorem headerBytes_length (now : Int) (n : Nat) : (headerBytes now n).length = 12 := rfl

/-- Within the range of `int64`, `NsecToTimeval` adds 999 ns, truncates toward
zero to whole microseconds, and splits the microseconds into seconds and a
remainder in `[0, 10^6)`. -/
theorem NsecToTimeval_eq (t : Int) (h0 : -9223372036854775808 ≤ t)
    (h1 : t + 999 < 9223372036854775808) :
    NsecToTimeval t
      = { Sec := goDiv (t + 999) 1000 / 1000000, Usec := goDiv (t + 999) 1000 % 1000000 } := by
  have e : int64 (t + 999) = t + 999 := by unfold int64; omega
  simp only [NsecToTimeval, e]
  by_cases hp : 0 ≤ t + 999
  · simp only [goDiv, goMod, hp, if_true]
    have h3 : (0 : Int) ≤ t + 999 - 1000000000 * ((t + 999) / 1000000000) := by omega
    simp only [h3, if_true]
    have h4 : ¬ ((t + 999 - 1000000000 * ((t + 999) / 1000000000)) / 1000 < 0) := by omega
    simp only [h4, if_false]
    congr 1 <;> omega
  · simp only [goDiv, goMod, hp, if_false]
    split <;> split <;> simp only [int64, Timeval.mk.injEq] <;> omega

/-- For a clock reading from the epoch on, `NsecToTimeval` is the reading
rounded up to the next microsecond, split into seconds and microseconds. -/
theorem NsecToTimeval_nonneg (t : Int) (h0 : 0 ≤ t) (h1 : t + 999 < 9223372036854775808) :
    NsecToTimeval t = { Sec := ceilMicros t / 1000000, Usec := ceilMicros t % 1000000 } := by
  rw [NsecToTimeval_eq t (by omega) h1]
  have hp : (0 : Int) ≤ t + 999 := by omega
  simp only [goDiv, hp, if_true, ceilMicros]

theorem fileWrite_accepts (w : World) (b : List Byte) (h : SinkAccepts w) :
    (fileWrite w b).2.fileData = w.fileData ++ b ∧ SinkAccepts (fileWrite w b).2 := by
  obtain ⟨hc, ha⟩ := h
  have hk : min (w.env.fileAccept w.trace b) b.length = b.length := Nat.min_eq_right (ha _ _)
  unfold fileWrite
  simp only [hc, Bool.false_eq_true, if_false, hk, List.take_length]
  exact ⟨trivial, rfl, ha⟩

theorem binaryWrite_accepts (w : World) (v : Int) (h : SinkAccepts w) :
    (binaryWrite w v).2.fileData = w.fileData ++ PutUint32 (uint32 (int32 v)) ∧
      SinkAccepts (binaryWrite w v).2 :=
  fileWrite_accepts w _ h

theorem writeTTYRecHeader_accepts (now : Int) (w : World) (n : Nat) (h : SinkAccepts w) :
    (writeTTYRecHeader now w n).fileData = w.fileData ++ headerBytes now n ∧
      SinkAccepts (writeTTYRecHeader now w n) := by
  unfold writeTTYRecHeader headerBytes
  obtain ⟨e1, a1⟩ := binaryWrite_accepts w (NsecToTimeval now).Sec h
  obtain ⟨e2, a2⟩ := binaryWrite_accepts _ (NsecToTimeval now).Usec a1
  obtain ⟨e3, a3⟩ := binaryWrite_accepts _ (n : Int) a2
  refine ⟨?_, a3⟩
  simp only [e3, e2, e1, List.append_assoc]

/-- With a capture file that takes every write, one `logChannel.Write` appends
the header and then the payload. -/
theorem logChannel_Write_accepts (l : logChannel) (now : Int) (w : World) (data : List Byte)
    (h : SinkAccepts w) :
    (l.Write now w data).2.fileData = w.fileData ++ (headerBytes now data.length ++ data) ∧
      SinkAccepts (l.Write now w data).2 := by
  obtain ⟨e1, a1⟩ := writeTTYRecHeader_accepts now w data.length h
  obtain ⟨e2, a2⟩ := fileWrite_accepts _ data a1
  refine ⟨?_, ?_⟩
  · simp only [logChannel.Write, chanWrite, e2, e1, List.append_assoc]
  · exact a2

theorem writeAll_accepts (l : logChannel) (writes : List (Int × List Byte)) (w : World)
    (h : SinkAccepts w) :
    (writeAll l writes w).fileData = w.fileData ++ captureOf writes := by
  induction writes generalizing w with
  | nil => simp [writeAll, captureOf]
  | cons x rest ih =>
    obtain ⟨now, data⟩ := x
    obtain ⟨e, a⟩ := logChannel_Write_accepts l now w data h
    simp only [writeAll, captureOf, ih _ a, e, List.append_assoc]

/-! ## Reading the capture back -/

/-- The reader on one well-formed record followed by `rest`. -/
theorem specReadRecords_step (fuel : Nat) (a b c data rest : List Byte)
    (ha : a.length = 4) (hb : b.length = 4) (hc : c.length = 4)
    (hn : leInt32 c = (data.length : Int)) :
    specReadRecords (fuel + 1) (a ++ b ++ c ++ data ++ rest)
      = (specReadRecords fuel rest).map
          (fun rs => { sec := leInt32 a, usec := leInt32 b, payload := data } :: rs) := by
  have e0 : a ++ b ++ c ++ data ++ rest = a ++ (b ++ (c ++ (data ++ rest))) := by
    simp only [List.append_assoc]
  have t4 : (a ++ b ++ c ++ data ++ rest).take 4 = a := by
    rw [e0, ← ha, List.take_left]
  have d4 : (a ++ b ++ c ++ data ++ rest).drop 4 = b ++ (c ++ (data ++ rest)) := by
    rw [e0, ← ha, List.drop_left]
  have d8 : (a ++ b ++ c ++ data ++ rest).drop 8 = c ++ (data ++ rest) := by
    have : (8 : Nat) = 4 + 4 := rfl
    rw [this, ← List.drop_drop, d4, ← hb, List.drop_left]
  have d12 : (a ++ b ++ c ++ data ++ rest).drop 12 = data ++ rest := by
    have : (12 : Nat) = 8 + 4 := rfl
    rw [this, ← List.drop_drop, d8, ← hc, List.drop_left]
  have t4b : ((a ++ b ++ c ++ data ++ rest).drop 4).take 4 = b := by
    rw [d4, ← hb, List.take_left]
  have t4c : ((a ++ b ++ c ++ data ++ rest).drop 8).take 4 = c := by
    rw [d8, ← hc, List.take_left]
  have hne : a ++ b ++ c ++ data ++ rest ≠ [] := by
    intro h
    have := congrArg List.length h
    simp only [List.length_append, ha, hb, hc, List.length_nil] at this
    omega
  have hlen : ¬ (a ++ b ++ c ++ data ++ rest).length < 12 := by
    simp only [List.length_append, ha, hb, hc]
    omega
  have hneg : ¬ ((data.length : Int) < 0) := by omega
  have hfit : ¬ (data ++ rest).length < data.length := by
    simp only [List.length_append]
    omega
  simp only [specReadRecords, hne, hlen, t4, t4b, t4c, d12, hn, hneg, hfit, if_false,
    Int.toNat_ofNat, List.take_left, List.drop_left]

theorem specReadRecords_write (fuel : Nat) (now : Int) (data rest : List Byte)
    (hlen : data.length < 2 ^ 31) :
    specReadRecords (fuel + 1) (headerBytes now data.length ++ data ++ rest)
      = (specReadRecords fuel rest).map (fun rs => recordOf (now, data) :: rs) := by
  have hn : leInt32 (PutUint32 (uint32 (int32 (data.length : Int)))) = (data.length : Int) := by
    rw [leInt32_PutUint32]
    unfold int32
    omega
  have := specReadRecords_step fuel (PutUint32 (uint32 (int32 (NsecToTimeval now).Sec)))
    (PutUint32 (uint32 (int32 (NsecToTimeval now).Usec)))
    (PutUint32 (uint32 (int32 (data.length : Int)))) data rest rfl rfl rfl hn
  simpa only [headerBytes, recordOf, leInt32_PutUint32] using this

/-- The reader on the bytes of a sequence of writes, with enough fuel. -/
theorem specReadRecords_captureOf (writes : List (Int × List Byte)) (fuel : Nat)
    (hf : writes.length < fuel) (hlen : ∀ x ∈ writes, x.2.length < 2 ^ 31) :
    specReadRecords fuel (captureOf writes) = some (writes.map recordOf) := by
  induction writes generalizing fuel with
  | nil =>
    obtain ⟨k, rfl⟩ : ∃ k, fuel = k + 1 := ⟨fuel - 1, by simp at hf; omega⟩
    simp [specReadRecords, captureOf]
  | cons x rest ih =>
    obtain ⟨now, data⟩ := x
    obtain ⟨k, rfl⟩ : ∃ k, fuel = k + 1 := ⟨fuel - 1, by simp at hf; omega⟩
    have h1 : data.length < 2 ^ 31 := hlen (now, data) (List.mem_cons_self _ _)
    have h2 : ∀ x ∈ rest, x.2.length < 2 ^ 31 := fun x hx => hlen x (List.mem_cons_of_mem _ hx)
    have hk : rest.length < k := by simp at hf; omega
    rw [captureOf, specReadRecords_write k now data _ h1, ih k hk h2]
    rfl

theorem captureOf_length (writes : List (Int × List Byte)) :
    writes.length ≤ (captureOf writes).length := by
  induction writes with
  | nil => simp
  | cons x rest ih =>
    obtain ⟨now, data⟩ := x
    simp only [captureOf, List.length_append, headerBytes_length, List.length_cons]
    omega

/-- The capture of a sequence of writes with payloads under `2^31` bytes reads
back as one record per write, in order. -/
theorem specParseCapture_captureOf (writes : List (Int × List Byte))
    (hlen : ∀ x ∈ writes, x.2.length < 2 ^ 31) :
    specParseCapture (captureOf writes) = some (writes.map recordOf) := by
  unfold specParseCapture
  exact specReadRecords_captureOf writes _ (by have := captureOf_length writes; omega) hlen

/-! ## C2, C3, C9: the capture -/

theorem freshWorld_accepts : SinkAccepts freshWorld :=
  ⟨rfl, fun _ _ => Nat.le_refl _⟩

theorem newLoggedChannel_accepts (w w0 : World) (l : logChannel) (s : Side)
    (hopen : newLoggedChannel w s = some (l, w0))
    (hacc : ∀ (t : List Call) (b : List Byte), b.length ≤ w.env.fileAccept t b) :
    SinkAccepts w0 ∧ w0.fileData = [] := by
  unfold newLoggedChannel at hopen
  by_cases hf : w.env.openFails w.trace
  · simp [hf] at hopen
  · simp only [hf, Bool.false_eq_true, if_false, Option.some.injEq, Prod.mk.injEq] at hopen
    obtain ⟨_, rfl⟩ := hopen
    exact ⟨⟨rfl, hacc⟩, rfl⟩

theorem longPayload_length : longPayload.length = 2 ^ 32 := by
  unfold longPayload
  exact List.length_replicate _ _

/-- A payload of `2^32` bytes is stored with length field 0: the reader takes
an empty payload for the first record, whatever it makes of the rest. -/
theorem long_payload_misread (now : Int) (p : List Byte) (hp : p.length = 2 ^ 32)
    (recs : List Record)
    (h : specParseCapture (headerBytes now p.length ++ p) = some recs) :
    recs.map Record.payload ≠ [p] := by
  have hn : leInt32 (PutUint32 (uint32 (int32 (p.length : Int))))
      = (([] : List Byte).length : Int) := by
    rw [leInt32_PutUint32, hp]
    unfold int32
    simp
  have hs := specReadRecords_step (headerBytes now p.length ++ p).length
    (PutUint32 (uint32 (int32 (NsecToTimeval now).Sec)))
    (PutUint32 (uint32 (int32 (NsecToTimeval now).Usec)))
    (PutUint32 (uint32 (int32 (p.length : Int)))) [] p rfl rfl rfl hn
  have e : PutUint32 (uint32 (int32 (NsecToTimeval now).Sec)) ++
      PutUint32 (uint32 (int32 (NsecToTimeval now).Usec)) ++
      PutUint32 (uint32 (int32 (p.length : Int))) ++ [] ++ p = headerBytes now p.length ++ p := by
    simp only [headerBytes, List.append_nil]
  rw [e] at hs
  unfold specParseCapture at h
  rw [hs] at h
  obtain ⟨rs, _, rfl⟩ := Option.map_eq_some'.mp h
  intro hc
  simp only [List.map_cons, List.cons.injEq] at hc
  have hl := congrArg List.length hc.1
  rw [hp] at hl
  simp at hl

/-- One write of a payload of `2^32` bytes on a capture file that takes every
write does not read back as one record with that payload. -/
theorem long_payload_counter (l : logChannel) (w : World) (p : List Byte)
    (hw : SinkAccepts w) (he : w.fileData = []) (hp : p.length = 2 ^ 32) :
    ¬ ∃ recs, specParseCapture (writeAll l [(0, p)] w).fileData = some recs ∧
        recs.map Record.payload = [p] := by
  rintro ⟨recs, h, hr⟩
  rw [writeAll_accepts l _ w hw, he] at h
  simp only [captureOf, List.append_nil, List.nil_append] at h
  exact long_payload_misread 0 p hp recs h hr

/-- C2, as stated, fails: one write of a payload of `2^32` bytes on a freshly
opened capture file that takes every write does not read back as one record
with that payload. -/
theorem capture_round_trip_fails_long_payload :
    ¬ ∃ recs, specParseCapture (writeAll clientLog [(0, longPayload)] freshWorld).fileData
        = some recs ∧ recs.map Record.payload = [longPayload] :=
  long_payload_counter clientLog freshWorld longPayload freshWorld_accepts rfl
    longPayload_length

/-- C2, amended: on a capture file freshly opened by `newLoggedChannel` that
takes every write in full, for every sequence of writes whose payloads are
each shorter than `2^31` bytes, the capture read by the reader of the
specification yields exactly one record per write, with the payloads of the
writes in the order written. -/
theorem capture_round_trip (w w0 : World) (l : logChannel)
    (writes : List (Int × List Byte))
    (hopen : newLoggedChannel w Side.client = some (l, w0))
    (hacc : ∀ (t : List Call) (b : List Byte), b.length ≤ w.env.fileAccept t b)
    (hlen : ∀ x ∈ writes, x.2.length < 2 ^ 31) :
    ∃ recs, specParseCapture (writeAll l writes w0).fileData = some recs ∧
      recs.length = writes.length ∧
      recs.map Record.payload = writes.map Prod.snd := by
  obtain ⟨ha, he⟩ := newLoggedChannel_accepts w w0 l Side.client hopen hacc
  refine ⟨writes.map recordOf, ?_, by simp, ?_⟩
  · rw [writeAll_accepts l writes w0 ha, he, List.nil_append]
    exact specParseCapture_captureOf writes hlen
  · simp [recordOf, Function.comp_def]

/-- Instance of the amended C2: two writes on the fresh capture of `freshWorld`. -/
theorem capture_round_trip_witness :
    ∃ recs, specParseCapture
        (writeAll clientLog [(1510000000123456789, lsOutput), (1510000001000000000, [36, 32])]
          freshWorld).fileData = some recs ∧
      recs.length = 2 ∧ recs.map Record.payload = [lsOutput, [36, 32]] :=
  capture_round_trip idealWorld freshWorld clientLog
    [(1510000000123456789, lsOutput), (1510000001000000000, [36, 32])] rfl
    (fun _ _ => Nat.le_refl _) (by decide)

/-- C3, as stated, fails: a write at the clock reading 1.999999500 s stores
the seconds field 2 and the microseconds field 0, not the whole seconds (1) and
the microseconds within the second (999999) of the reading. -/
theorem record_layout_fails_rounding :
    (clientLog.Write 1999999500 freshWorld []).2.fileData ≠ specRecordBytes 1999999500 [] := by
  rw [(logChannel_Write_accepts clientLog 1999999500 freshWorld [] freshWorld_accepts).1]
  decide

/-- C3, amended: with a capture file that is open and takes every write in
full, a write of a payload of length `n` at a clock reading `t` from the epoch
on (with `t + 999` ns still an `int64`) appends exactly `12 + n` bytes: the 4-byte little-endian encodings of the
low 32 bits of the seconds and of the microseconds of `t` rounded up to the
next whole microsecond, then of the low 32 bits of `n`, then the `n` payload
bytes unchanged, and nothing else. -/
theorem record_layout (l : logChannel) (now : Int) (w : World) (data : List Byte)
    (hs : SinkAccepts w) (h0 : 0 ≤ now) (h1 : now + 999 < 9223372036854775808) :
    (l.Write now w data).2.fileData = w.fileData ++ roundedRecordBytes now data ∧
      (roundedRecordBytes now data).length = 12 + data.length := by
  constructor
  · rw [(logChannel_Write_accepts l now w data hs).1]
    simp only [headerBytes, roundedRecordBytes, PutUint32_eq_specLE32,
      NsecToTimeval_nonneg now h0 h1]
  · simp only [roundedRecordBytes, specLE32, List.length_append, List.length_cons,
      List.length_nil]

/-- Instance of the amended C3: one write of `"a.txt\nb.txt\n"` gives a 24-byte
record whose length field is `0C 00 00 00`. -/
theorem record_layout_witness :
    (clientLog.Write 1510000000123456789 freshWorld lsOutput).2.fileData
        = [128, 197, 0, 90, 65, 226, 1, 0, 12, 0, 0, 0] ++ lsOutput ∧
      (roundedRecordBytes 1510000000123456789 lsOutput).length = 24 :=
  have h := record_layout clientLog 1510000000123456789 freshWorld lsOutput
    freshWorld_accepts (by decide) (by decide)
  ⟨h.1.trans (by decide), h.2⟩

/-- Two clock readings in order, both with seconds that fit an `int32`, are
stored as timestamps in order. -/
theorem stamp_mono (a b : Int × List Byte) (hab : a.1 ≤ b.1) (ha : FitsInt32Seconds a.1)
    (hb : FitsInt32Seconds b.1) : stampLE (recordOf a) (recordOf b) := by
  obtain ⟨ha0, ha1⟩ := ha
  obtain ⟨hb0, hb1⟩ := hb
  have ea := NsecToTimeval_eq a.1 (by omega) (by omega)
  have eb := NsecToTimeval_eq b.1 (by omega) (by omega)
  simp only [stampLE, recordOf, ea, eb, int32, goDiv]
  split <;> split <;> omega

/-- C9, as stated, fails: two writes in a row, the clock moving forward from
2147483647 s to 2147483648 s after the epoch, are stored with the seconds
fields 2147483647 and -2147483648 when read as signed 32-bit integers: the
second timestamp is below the first. -/
theorem timestamps_decrease_at_2038 :
    ∃ r1 r2, specParseCapture
        (writeAll clientLog [(2147483647000000000, []), (2147483648000000000, [])]
          freshWorld).fileData = some [r1, r2] ∧ ¬ stampLE r1 r2 := by
  refine ⟨recordOf (2147483647000000000, []), recordOf (2147483648000000000, []), ?_,
    by decide⟩
  have e : freshWorld.fileData = [] := rfl
  rw [writeAll_accepts clientLog _ freshWorld freshWorld_accepts, e, List.nil_append]
  exact specParseCapture_captureOf _ (by decide)

/-- C9, amended: on a capture file freshly opened by `newLoggedChannel` that
takes every write in full, for every sequence of writes with payloads shorter
than `2^31` bytes whose clock readings are non-decreasing and have seconds
that fit a signed 32-bit integer (with the 999 ns of the rounding added, the
reading lies from `-2^31` s to before `2^31` s around the epoch), the capture
reads back as one record per write, and the (seconds, microseconds) pairs of
the headers, read as signed 32-bit integers and compared lexicographically,
are non-decreasing: the pair of an earlier write is at most the pair of every
later write. -/
theorem timestamps_nondecreasing (w w0 : World) (l : logChannel)
    (writes : List (Int × List Byte))
    (hopen : newLoggedChannel w Side.client = some (l, w0))
    (hacc : ∀ (t : List Call) (b : List Byte), b.length ≤ w.env.fileAccept t b)
    (hclock : writes.Pairwise (fun a b => a.1 ≤ b.1))
    (hrange : ∀ x ∈ writes, FitsInt32Seconds x.1)
    (hlen : ∀ x ∈ writes, x.2.length < 2 ^ 31) :
    ∃ recs, specParseCapture (writeAll l writes w0).fileData = some recs ∧
      recs.length = writes.length ∧ recs.Pairwise stampLE := by
  obtain ⟨ha, he⟩ := newLoggedChannel_accepts w w0 l Side.client hopen hacc
  refine ⟨writes.map recordOf, ?_, by simp, ?_⟩
  · rw [writeAll_accepts l writes w0 ha, he, List.nil_append]
    exact specParseCapture_captureOf writes hlen
  · rw [List.pairwise_map]
    exact hclock.imp_of_mem
      (fun {a b} hma hmb hab => stamp_mono a b hab (hrange a hma) (hrange b hmb))

/-- Instance of the amended C9: three writes with the clock moving forward. -/
theorem timestamps_nondecreasing_witness :
    ∃ recs, specParseCapture
        (writeAll clientLog
          [(1510000000123456789, lsOutput), (1510000000123456999, [36, 32]),
           (1510000001000000000, [])] freshWorld).fileData = some recs ∧
      recs.length = 3 ∧ recs.Pairwise stampLE :=
  timestamps_nondecreasing idealWorld freshWorld clientLog
    [(1510000000123456789, lsOutput), (1510000000123456999, [36, 32]),
     (1510000001000000000, [])] rfl (fun _ _ => Nat.le_refl _) (by decide) (by decide)
    (by decide)

/-! ## Instances of the theorems above -/

/-- Instance of C4: a `window-change` request from the client, forwarded with
success. -/
theorem proxy_forwards_requests_witness :
    startProxy.main = MainPc.selecting ∧
    ∃ q, step (Step.recvReqs1 (some resizeReq)) startProxy = some q ∧
      q.main = MainPc.selecting ∧
      callsSince startProxy.w.trace.length q.w
        = [Call.sendRequest Side.target resizeReq.typ resizeReq.WantReply resizeReq.Payload,
           Call.reply Side.client resizeReq true] :=
  ⟨rfl, (proxy_forwards_requests startProxy resizeReq rfl).1.elim
    (fun q hq => ⟨q, hq.1, hq.2.1 rfl⟩)⟩

/-- Instance of C5: three calls of `closer.Do(closeFunc)`. -/
theorem closer_Do_exactly_once_witness :
    1 ≤ 3 ∧
    callsSince freshWorld.trace.length
        (doTimes { channel := Side.client } 3 ({ done := false }, freshWorld)).2
      = [Call.fileClose, Call.chanClose Side.client, Call.chanClose Side.target] :=
  ⟨by decide, (closer_Do_exactly_once freshWorld 3 (by decide)).2.1⟩

/-- Instance of C6: a request, one iteration of each copy, then a nil request
from the target stream. -/
theorem proxy_teardown_on_every_exit_witness :
    ∃ p, run [Step.recvReqs1 (some resizeReq), Step.copyA 1510000000123456789 lsOutput none,
              Step.copyB [108, 115, 10] none, Step.recvReqs2 none] startProxy = some p ∧
      p.main = MainPc.returned ∧
      closesSince idealWorld.trace.length p.w = teardownCalls := by
  refine ⟨_, rfl, rfl, ?_⟩
  exact ((proxy_teardown_on_every_exit idealWorld startProxy _
    [Step.recvReqs1 (some resizeReq), Step.copyA 1510000000123456789 lsOutput none,
     Step.copyB [108, 115, 10] none, Step.recvReqs2 none] rfl rfl).1 rfl).2

end Bastion
